import Mathlib

/-!
Verification development for the AICES AI resume worker.

The Python sources are shallowly embedded:
* JSON numbers are modelled as rationals (`Rat`); CPython floats are an
  implementation detail abstracted away.
* Python dictionaries are association lists with first-match lookup and
  update-in-place-or-append assignment (keys are unique in JSON objects).
* Python truthiness (`x or y`, `if x:`) is modelled by explicit helpers.
* AI (Gemini) calls are modelled as oracle parameters; every function that
  may call the AI additionally reports how many AI calls it made.
* `str.strip`, `str.split(",")` and `str.lower` are modelled by executable
  recursions over the character list (faithful for the ASCII data involved).
-/

/-! ## Python primitives -/

/-- Python truthiness filter for an optional number: `None` and `0` are falsy.
Models the `x or y` coalescing chains of the source. -/
def pyTruthyNum (a : Option Rat) : Option Rat :=
  match a with
  | some x => if x = 0 then none else some x
  | none => none

/-- Python `int()` on a number: truncation toward zero. -/
def pyInt (q : Rat) : Int :=
  Int.tdiv q.num (q.den : Int)

/-- Round-half-to-even at integer precision, as CPython `round` does. -/
def roundHalfEven (q : Rat) : Int :=
  if q - (⌊q⌋ : Rat) < Rat.divInt 1 2 then ⌊q⌋
  else if Rat.divInt 1 2 < q - (⌊q⌋ : Rat) then ⌊q⌋ + 1
  else if ⌊q⌋ % 2 = 0 then ⌊q⌋ else ⌊q⌋ + 1

/-- Python `round(q, 2)`. -/
def round2 (q : Rat) : Rat :=
  Rat.divInt (roundHalfEven (q * 100)) 100

/-- Python `str.strip()` (ASCII whitespace). -/
def pyStrip (s : String) : String :=
  ⟨((s.data.dropWhile Char.isWhitespace).reverse.dropWhile Char.isWhitespace).reverse⟩

/-- Helper for `pySplitComma`: accumulates the current piece in reverse. -/
def splitCommaAux : List Char → List Char → List String
  | [], acc => [⟨acc.reverse⟩]
  | c :: rest, acc =>
    if c = ',' then (⟨acc.reverse⟩ : String) :: splitCommaAux rest []
    else splitCommaAux rest (c :: acc)

/-- Python `s.split(",")`: splits at every comma, keeping empty pieces. -/
def pySplitComma (s : String) : List String :=
  splitCommaAux s.data []

/-- Python `str.lower()` (ASCII). -/
def pyLower (s : String) : String :=
  ⟨s.data.map Char.toLower⟩

/-- Truthiness of an optional string: `None` and `""` are falsy. -/
def pyTruthyStr (a : Option String) : Bool :=
  match a with
  | some s => s ≠ ""
  | none => false

/-! ## Criteria scorer (`worker/services/scorer.py`)

`_validate_ai_response_structure` guarantees that every AI score item is a
dictionary carrying `criteriaId`, `matched`, `AINote` and at least one of
`rawScore`/`score`; the values themselves are unconstrained JSON, whose
numeric payloads we model as optional rationals and whose note as an
optional string. -/

/-- One entry of the caller-supplied criteria list.  `criteriaId` is a
required key (the source indexes `c["criteriaId"]`), `weight` is read with
`c.get("weight") or 0.0`. -/
structure Criterion where
  criteriaId : Rat
  name : String
  weight : Option Rat
  deriving Repr

/-- One (possibly not yet normalized) AI score item. -/
structure ScoreItem where
  criteriaId : Option Rat
  matched : Option Rat
  rawScore : Option Rat
  score : Option Rat
  AINote : Option String
  deriving Repr, DecidableEq

/-- The weight map of `_normalize_ai_response`:
`{int(c["criteriaId"]): float(c.get("weight") or 0.0) for c in criteria_list}`
followed by `.get(criteria_id, 0.0)`.  A Python dict comprehension keeps the
last binding for a duplicated key, hence the reversed search. -/
def criteriaWeight (criteria_list : List Criterion) (cid : Int) : Rat :=
  match criteria_list.reverse.find? (fun c => pyInt c.criteriaId = cid) with
  | some c => (pyTruthyNum c.weight).getD 0
  | none => 0

/-- The per-item body of the `for item in items` loop of
`_normalize_ai_response` (scorer.py lines 296-318). -/
def normalize_item (criteria_list : List Criterion) (item : ScoreItem) : ScoreItem :=
  let criteria_id : Int := pyInt (item.criteriaId.getD 0)
  let raw0 : Rat := ((pyTruthyNum item.rawScore).orElse (fun _ => pyTruthyNum item.score)).getD 0
  let raw_score : Rat := max 0 (min 100 raw0)
  let weight : Rat := criteriaWeight criteria_list criteria_id
  let weighted_score : Rat := round2 (raw_score * weight)
  { criteriaId := some ((criteria_id : Int) : Rat)
    matched := some (item.matched.getD 0)
    rawScore := some raw_score
    score := some weighted_score
    AINote := some (item.AINote.getD "") }

/-- The `items` part of `_normalize_ai_response`. -/
def normalize_ai_response_items (criteria_list : List Criterion)
    (items : List ScoreItem) : List ScoreItem :=
  items.map (normalize_item criteria_list)

/-- `_calculate_weighted_total_score` (scorer.py lines 336-345). -/
def calculate_weighted_total_score (items : List ScoreItem) : Rat :=
  round2 (max 0 (min 100 ((items.map (fun item => item.score.getD 0)).sum)))

/-! ## JSON values and Python dictionaries

Used by the resume parser (`worker/services/parser.py`) and the resume
validator (`worker.py`).  A JSON object is an association list with the
usual Python-dict semantics: first-match lookup, assignment overwrites in
place, fresh keys are appended. -/

/-- A JSON value. -/
inductive JVal where
  | null : JVal
  | bool (b : Bool) : JVal
  | num (q : Rat) : JVal
  | str (s : String) : JVal
  | arr (elems : List JVal) : JVal
  | obj (fields : List (String × JVal)) : JVal

/-- Python `d.get(k)` / `d[k]` lookup (first matching key). -/
def dictGet (d : List (String × JVal)) (k : String) : Option JVal :=
  (d.find? (fun p => p.1 = k)).map (fun p => p.2)

/-- Python `d[k] = v`: overwrite the existing binding in place, else append. -/
def dictSet : List (String × JVal) → String → JVal → List (String × JVal)
  | [], k, v => [(k, v)]
  | p :: rest, k, v => if p.1 = k then (k, v) :: rest else p :: dictSet rest k v

/-- Python truthiness of a looked-up JSON value (`if x:`): `None`, `False`,
`0`, `""`, `[]`, `{}` and a missing key are falsy. -/
def pyTruthyJVal (a : Option JVal) : Bool :=
  match a with
  | none => false
  | some JVal.null => false
  | some (JVal.bool b) => b
  | some (JVal.num q) => q ≠ 0
  | some (JVal.str s) => s ≠ ""
  | some (JVal.arr elems) => ¬elems.isEmpty
  | some (JVal.obj fields) => ¬fields.isEmpty

/-! ## Resume parser defaulting (`worker/services/parser.py`) -/

/-- The `defaults` table of `_ensure_required_fields` (parser.py 175-185). -/
def parserDefaults : List (String × JVal) :=
  [("info", JVal.obj []),
   ("education", JVal.arr []),
   ("work_experience", JVal.arr []),
   ("technical_skills", JVal.obj []),
   ("certifications", JVal.arr []),
   ("projects", JVal.arr []),
   ("languages_and_skills", JVal.arr []),
   ("summary", JVal.null),
   ("total_experience_years", JVal.num 0)]

/-- The `info_defaults` table (parser.py 193-200). -/
def infoDefaults : List (String × JVal) :=
  [("fullName", JVal.null), ("email", JVal.null), ("phone", JVal.null),
   ("location", JVal.null), ("linkedin", JVal.null), ("portfolio", JVal.null)]

/-- The `skills_defaults` table (parser.py 207-214). -/
def skillsDefaults : List (String × JVal) :=
  [("programming_languages", JVal.arr []), ("frameworks", JVal.arr []),
   ("databases", JVal.arr []), ("tools", JVal.arr []),
   ("cloud", JVal.arr []), ("other", JVal.arr [])]

/-- One step of the top-level defaulting loop:
`if key not in parsed or parsed[key] is None: parsed[key] = default_value`. -/
def ensureTopStep (parsed : List (String × JVal)) (kv : String × JVal) :
    List (String × JVal) :=
  match dictGet parsed kv.1 with
  | none => dictSet parsed kv.1 kv.2
  | some JVal.null => dictSet parsed kv.1 kv.2
  | some _ => parsed

/-- One step of a sub-field defaulting loop:
`if key not in parsed[target]: parsed[target][key] = default_value`
(only missing keys are added, `None` values are kept). -/
def ensureSubStep (fields : List (String × JVal)) (kv : String × JVal) :
    List (String × JVal) :=
  match dictGet fields kv.1 with
  | none => dictSet fields kv.1 kv.2
  | some _ => fields

/-- Defaulting of the sub-fields of one object-valued top-level key
(`isinstance(parsed.get(target), dict)` guard included). -/
def ensureSubFields (parsed : List (String × JVal)) (target : String)
    (defaults : List (String × JVal)) : List (String × JVal) :=
  match dictGet parsed target with
  | some (JVal.obj fields) => dictSet parsed target (JVal.obj (defaults.foldl ensureSubStep fields))
  | _ => parsed

/-- `_ensure_required_fields` (parser.py lines 170-219): the top-level
defaulting loop, then the `info` sub-fields, then the `technical_skills`
sub-fields. -/
def ensure_required_fields (parsed : List (String × JVal)) : List (String × JVal) :=
  ensureSubFields
    (ensureSubFields (parserDefaults.foldl ensureTopStep parsed) "info" infoDefaults)
    "technical_skills" skillsDefaults

/-! ## Resume validator (`worker.py`, `_looks_like_resume`, lines 214-305)

The AI tie-break `_validate_resume_with_ai` is modelled by an oracle
`aiVerdict : Option Bool` (`none` = the AI call failed and the caller falls
back).  The result records the boolean decision together with the number of
AI calls that were made.  A string-valued `info` field is modelled as text
that does not parse as JSON (the `json.loads` fallback yields `{}`). -/

/-- Outcome of `_looks_like_resume`: the decision and the number of AI
validation calls made on the way. -/
structure ValidationOutcome where
  isResume : Bool
  aiCalls : Nat
  deriving Repr, DecidableEq

/-- The `info` object used for the contact check:
`info = parsed_resume.get("info") or {}` followed by the `isinstance`
guards (non-objects behave as an empty dict). -/
def validatorInfo (parsed : List (String × JVal)) : List (String × JVal) :=
  match (if pyTruthyJVal (dictGet parsed "info") then dictGet parsed "info" else some (JVal.obj [])) with
  | some (JVal.obj fields) => fields
  | _ => []

/-- `has_basic_info` (worker.py 234-239). -/
def has_basic_info (parsed : List (String × JVal)) : Bool :=
  let info := validatorInfo parsed
  let has_name := pyTruthyJVal (dictGet info "fullName") || pyTruthyJVal (dictGet info "name")
  let has_email := pyTruthyJVal (dictGet info "email")
  let has_phone := pyTruthyJVal (dictGet info "phone") || pyTruthyJVal (dictGet info "phoneNumber")
  has_name || (has_email && has_phone)

/-- Whether one element of a work/education list has actual content
(worker.py 247-253). -/
def listItemHasContent : JVal → Bool
  | JVal.obj fields => fields.any (fun p =>
      match p.2 with
      | JVal.str s => pyStrip s ≠ ""
      | _ => false)
  | JVal.str s => pyStrip s ≠ ""
  | _ => false

/-- `_list_has_content` (worker.py 241-254). -/
def list_has_content (value : Option JVal) : Bool :=
  if ¬pyTruthyJVal value then false
  else
    match value with
    | some (JVal.arr items) => items.any listItemHasContent
    | _ => false

/-- `has_experience` for a parsed resume. -/
def has_experience (parsed : List (String × JVal)) : Bool :=
  list_has_content (dictGet parsed "work_experience")

/-- `has_education` for a parsed resume. -/
def has_education (parsed : List (String × JVal)) : Bool :=
  list_has_content (dictGet parsed "education")

/-- `has_skills` (worker.py 259-266): some technical-skill category is a
non-empty list (the generator skips `None` values). -/
def has_skills (parsed : List (String × JVal)) : Bool :=
  match dictGet parsed "technical_skills" with
  | some (JVal.obj fields) => fields.any (fun p =>
      match p.2 with
      | JVal.arr elems => ¬elems.isEmpty
      | _ => false)
  | _ => false

/-- `critical_fields_count = sum([has_experience, has_education, has_skills])`. -/
def critical_fields_count (parsed : List (String × JVal)) : Nat :=
  (if has_experience parsed then 1 else 0) +
  (if has_education parsed then 1 else 0) +
  (if has_skills parsed then 1 else 0)

/-- `_looks_like_resume` (worker.py 214-305). -/
def looks_like_resume (parsed : List (String × JVal)) (resume_text : Option String)
    (gemini_api_key : Option String) (aiVerdict : Option Bool) : ValidationOutcome :=
  let textTruthy := pyTruthyStr resume_text
  let keyTruthy := pyTruthyStr gemini_api_key
  let tooShort : Bool :=
    match resume_text with
    | some t => decide ((pyStrip t).length < 50)
    | none => false
  if tooShort then ⟨false, 0⟩
  else if critical_fields_count parsed < 2 then
    if has_basic_info parsed && decide (1 ≤ critical_fields_count parsed) then
      if textTruthy && keyTruthy then
        match aiVerdict with
        | some b => ⟨b, 1⟩
        | none => ⟨false, 1⟩
      else ⟨false, 0⟩
    else ⟨false, 0⟩
  else
    if textTruthy && keyTruthy &&
        decide (200 < (match resume_text with | some t => t.length | none => 0)) then
      match aiVerdict with
      | some b => ⟨b, 1⟩
      | none => ⟨true, 1⟩
    else ⟨true, 0⟩

/-! ## Worker retry loop (`worker.py`, lines 1191-1215)

`for attempt in range(1, MAX_RETRIES + 1)` with `break` on success,
`time.sleep(RETRY_DELAY_SECONDS * attempt)` between failed attempts, and a
final give-up when `attempt >= MAX_RETRIES`.  Whether processing succeeds
on a given attempt is an oracle `succeeds : Nat → Bool`; a successful
attempt is the one that delivers the result payload. -/

def MAX_RETRIES : Nat := 3

def RETRY_DELAY_SECONDS : Nat := 5

/-- Trace of one job's trip through the retry loop. -/
structure RetryTrace where
  invocations : Nat
  delivered : Bool
  sleeps : List Nat
  deriving Repr, DecidableEq

/-- The body of the retry `for` loop, iterating over the attempt numbers. -/
def retry_attempts (succeeds : Nat → Bool) : List Nat → RetryTrace
  | [] => ⟨0, false, []⟩
  | attempt :: rest =>
    if succeeds attempt then ⟨1, true, []⟩
    else if MAX_RETRIES ≤ attempt then ⟨1, false, []⟩
    else
      let t := retry_attempts succeeds rest
      ⟨t.invocations + 1, t.delivered, RETRY_DELAY_SECONDS * attempt :: t.sleeps⟩

/-- The per-job part of `worker_loop`: attempts `1, ..., MAX_RETRIES`. -/
def worker_loop_process_job (succeeds : Nat → Bool) : RetryTrace :=
  retry_attempts succeeds (List.range' 1 MAX_RETRIES)

/-! ## Candidate comparator (`worker/services/comparator.py`)

Prompt construction and the AI call are I/O; the AI's reply is an oracle
`aiResponse` (`none` = empty/unparseable response).  What is modelled
exactly are the candidate-count guards (lines 30-44) and the duplicate-rank
repair (lines 326-335).  One AI-ranked candidate is reduced to the data the
repair step touches. -/

/-- One candidate entry of the AI comparison response, after the
field-validation pass: its `applicationId` and its
`analysis.recommendation.rank`. -/
structure CandResult where
  applicationId : Int
  rank : Int
  deriving Repr, DecidableEq

/-- Position of the first occurrence of an element in a list (the list
index a mutated candidate dict receives from `enumerate(sorted_candidates)`). -/
def idxOfD {α : Type} [DecidableEq α] (x : α) : List α → Nat
  | [] => 0
  | y :: t => if y = x then 0 else idxOfD x t + 1

/-- The `key=lambda x: x["analysis"]["recommendation"]["rank"]` ordering used
by `sorted` (on index-tagged candidates; `sorted` is stable). -/
def rankLE (a b : Nat × CandResult) : Bool :=
  decide (a.2.rank ≤ b.2.rank)

/-- The duplicate repair: `sorted_candidates = sorted(..., key=rank)` followed
by `for idx, c in enumerate(sorted_candidates, 1): c[...]["rank"] = idx`.
The candidate dicts are mutated in place, so the output keeps the original
list order; each candidate's new rank is 1 plus its position in the stable
sort.  Mutable dict identity is modelled by tagging each candidate with its
original index. -/
def reassign_ranks (cands : List CandResult) : List CandResult :=
  cands.enum.map (fun p =>
    { p.2 with rank := ((idxOfD p (cands.enum.mergeSort rankLE) : Nat) : Int) + 1 })

/-- The rank-uniqueness validation (`len(ranks) != len(set(ranks))`) plus
repair (comparator.py lines 326-335). -/
def repair_ranks (cands : List CandResult) : List CandResult :=
  if (cands.map (fun c => c.rank)).Nodup then cands else reassign_ranks cands

/-- Result of `compare_candidates`: a typed error or the validated,
rank-repaired candidate list. -/
inductive CompareOutcome where
  | error (code reason : String) : CompareOutcome
  | success (cands : List CandResult) : CompareOutcome

/-- `compare_candidates` (comparator.py lines 12-363): the count guards, the
AI call (oracle), and the rank repair.  The second component records whether
the AI gateway was invoked. -/
def compare_candidates (candidates : List JVal)
    (aiResponse : Option (List CandResult)) : CompareOutcome × Bool :=
  if candidates.length < 2 then
    (CompareOutcome.error "insufficient_candidates"
      ("Not enough candidates for comparison (minimum 2 required, got " ++
        toString candidates.length ++ ")"), false)
  else if 5 < candidates.length then
    (CompareOutcome.error "invalid_data"
      ("Too many candidates for comparison (maximum 5 allowed, got " ++
        toString candidates.length ++ ")"), false)
  else
    match aiResponse with
    | none => (CompareOutcome.error "processing_failed" "AI returned empty response", true)
    | some cands => (CompareOutcome.success (repair_ranks cands), true)

/-! ## Callback client (`callback_client.py`)

`send_ai_result` POSTs the payload and ends with
`response.raise_for_status()`, which (per `requests`) raises `HTTPError`
exactly for status codes in `[400, 600)`. -/

/-- Whether `requests.Response.raise_for_status()` raises for a status. -/
def raise_for_status (status : Nat) : Bool :=
  decide (400 ≤ status ∧ status < 600)

/-- `CallbackClient.send_ai_result`, observed at the HTTP-status level:
the function body re-raises every exception it logs. -/
def send_ai_result (status : Nat) : Except String Unit :=
  if raise_for_status status then Except.error "HTTPError" else Except.ok ()

/-! ## `_build_require_skills` (`worker.py`, lines 842-872) -/

/-- `[s.strip() for s in text.split(",") if s.strip()]`. -/
def skill_entries (s : String) : List String :=
  ((pySplitComma s).map pyStrip).filter (fun x => x ≠ "")

/-- The entries contributed by one optional input, including the
`x and isinstance(x, str) and x.strip()` guard. -/
def skill_parts (o : Option String) : List String :=
  match o with
  | some s => if pyStrip s ≠ "" then skill_entries s else []
  | none => []

/-- The loop of lines 863-868: a `seen` set of lowercased entries and the
`unique_parts` accumulator. -/
def build_require_skills_fold (parts : List String) : List String × List String :=
  parts.foldl
    (fun acc part =>
      if pyLower part ∈ acc.1 then acc
      else (pyLower part :: acc.1, acc.2 ++ [part]))
    ([], [])

/-- `_build_require_skills` (worker.py lines 842-872). -/
def build_require_skills (match_skills missing_skills : Option String) : Option String :=
  if (build_require_skills_fold (skill_parts match_skills ++ skill_parts missing_skills)).2 ≠ [] then
    some (String.intercalate ", "
      (build_require_skills_fold (skill_parts match_skills ++ skill_parts missing_skills)).2)
  else none

/-- Modelled from the spec of the claim: case-insensitive de-duplication
keeping the first occurrence (with its original casing and order). -/
def dedupCaseInsensitive (l : List String) : List String :=
  match l with
  | [] => []
  | x :: xs => x :: dedupCaseInsensitive (xs.filter (fun y => pyLower y ≠ pyLower x))
termination_by l.length
decreasing_by simp; exact Nat.lt_succ_of_le (List.length_filter_le _ _)

/-- Modelled from the spec of the claim: `requireSkills` is the comma-joined
concatenation of the trimmed entries of `matchSkills` then `missingSkills`,
de-duplicated case-insensitively, `null` when no non-empty entry exists. -/
def require_skills_spec (match_skills missing_skills : Option String) : Option String :=
  if (dedupCaseInsensitive (skill_parts match_skills ++ skill_parts missing_skills)).isEmpty then none
  else some (String.intercalate ", "
    (dedupCaseInsensitive (skill_parts match_skills ++ skill_parts missing_skills)))

/-- Generalization of `dedupCaseInsensitive` to a starting `seen` set; used
to relate the accumulator loop of `_build_require_skills` to the spec. -/
def dedupCIFrom (seen : List String) : List String → List String
  | [] => []
  | x :: xs =>
    if pyLower x ∈ seen then dedupCIFrom seen xs
    else x :: dedupCIFrom (pyLower x :: seen) xs

/-- The value each required top-level key holds after `_ensure_required_fields`
when it was absent or `None` in the AI output: the typed default, with the
`info` / `technical_skills` objects further filled with their sub-field
defaults. -/
def parserFinalDefault (k : String) : JVal :=
  if k = "info" then JVal.obj infoDefaults
  else if k = "technical_skills" then JVal.obj skillsDefaults
  else ((parserDefaults.find? (fun p => p.1 = k)).map (fun p => p.2)).getD JVal.null

/-! ## Theorems -/

/-- C5: a job whose processing always raises is attempted exactly
`MAX_RETRIES = 3` times and then dropped (not delivered); a job that raises
on the first two attempts and succeeds on the third is attempted exactly 3
times and delivered once; the sleep between attempt `n` and attempt `n+1`
is `RETRY_DELAY_SECONDS * n` (linearly increasing backoff). -/
theorem worker_retry_ceiling_and_backoff (alwaysFails twiceThenOk : Nat → Bool)
    (hfail : ∀ n, alwaysFails n = false)
    (h1 : twiceThenOk 1 = false) (h2 : twiceThenOk 2 = false)
    (h3 : twiceThenOk 3 = true) :
    worker_loop_process_job alwaysFails =
      ⟨3, false, [RETRY_DELAY_SECONDS * 1, RETRY_DELAY_SECONDS * 2]⟩ ∧
    worker_loop_process_job twiceThenOk =
      ⟨3, true, [RETRY_DELAY_SECONDS * 1, RETRY_DELAY_SECONDS * 2]⟩ := by
  have hr : List.range' 1 MAX_RETRIES = [1, 2, 3] := rfl
  constructor
  · simp [worker_loop_process_job, hr, retry_attempts, hfail 1, hfail 2, hfail 3,
      MAX_RETRIES, RETRY_DELAY_SECONDS]
  · simp [worker_loop_process_job, hr, retry_attempts, h1, h2, h3,
      MAX_RETRIES, RETRY_DELAY_SECONDS]

/-- Witness for C5 at the always-failing oracle and the
fails-twice-then-succeeds oracle. -/
theorem worker_retry_ceiling_and_backoff_witness :
    worker_loop_process_job (fun _ => false) = ⟨3, false, [5, 10]⟩ ∧
    worker_loop_process_job (fun n => n == 3) = ⟨3, true, [5, 10]⟩ := by
  have h := worker_retry_ceiling_and_backoff (fun _ => false) (fun n => n == 3)
    (fun _ => rfl) rfl rfl rfl
  simpa [RETRY_DELAY_SECONDS] using h

/-- C6: a comparison job with fewer than 2 candidates yields the error code
`insufficient_candidates` and a job with more than 5 candidates yields
`invalid_data`, in both cases without invoking the AI gateway (the second
component of the result is the AI-invoked flag). -/
theorem comparator_candidate_count_guard (small big : List JVal)
    (ai1 ai2 : Option (List CandResult))
    (hsmall : small.length < 2) (hbig : 5 < big.length) :
    (∃ reason, compare_candidates small ai1 =
      (CompareOutcome.error "insufficient_candidates" reason, false)) ∧
    (∃ reason, compare_candidates big ai2 =
      (CompareOutcome.error "invalid_data" reason, false)) := by
  have hbig2 : ¬(big.length < 2) := by omega
  constructor
  · exact ⟨_, by rw [compare_candidates.eq_def, if_pos hsmall]⟩
  · exact ⟨_, by rw [compare_candidates.eq_def, if_neg hbig2, if_pos hbig]⟩

/-- Witness for C6 with 1 and 6 candidates. -/
theorem comparator_candidate_count_guard_witness :
    (∃ reason, compare_candidates [JVal.null] (some []) =
      (CompareOutcome.error "insufficient_candidates" reason, false)) ∧
    (∃ reason, compare_candidates
        [JVal.null, JVal.null, JVal.null, JVal.null, JVal.null, JVal.null] none =
      (CompareOutcome.error "invalid_data" reason, false)) :=
  comparator_candidate_count_guard [JVal.null]
    [JVal.null, JVal.null, JVal.null, JVal.null, JVal.null, JVal.null]
    (some []) none (by decide) (by decide)

/-- C9 counterexample: HTTP status 304 is not a 2xx status, yet
`send_ai_result` returns normally (requests' `raise_for_status` raises only
for 4xx/5xx).  This refutes "raises exactly on non-2xx". -/
theorem callback_non2xx_counterexample :
    send_ai_result 304 = Except.ok () ∧ ¬(200 ≤ 304 ∧ 304 < 300) := by
  constructor
  · rfl
  · decide

/-- C9 (amended): `send_ai_result` raises exactly when the POST's status
code is a 4xx or 5xx (i.e. in `[400, 600)`); in particular it returns
normally on every 2xx status. -/
theorem callback_raises_iff_4xx_5xx (status : Nat) :
    send_ai_result status = Except.error "HTTPError" ↔
      400 ≤ status ∧ status < 600 := by
  unfold send_ai_result raise_for_status
  by_cases h : 400 ≤ status ∧ status < 600 <;> simp [h]

/-- C4: on a parsed resume alone (no extracted raw text supplied, any API
key, any AI verdict), the validator passes a resume with exactly 2 of
{experience, education, skills} populated and no contact info while making
0 AI calls, and rejects one with exactly 1 populated and no contact info
while making 0 AI calls. -/
theorem resume_validator_threshold (p2 p1 : List (String × JVal))
    (key : Option String) (v2 v1 : Option Bool)
    (h2basic : has_basic_info p2 = false) (h2count : critical_fields_count p2 = 2)
    (h1basic : has_basic_info p1 = false) (h1count : critical_fields_count p1 = 1) :
    looks_like_resume p2 none key v2 = ⟨true, 0⟩ ∧
    looks_like_resume p1 none key v1 = ⟨false, 0⟩ := by
  constructor
  · unfold looks_like_resume
    simp [pyTruthyStr, h2count]
  · unfold looks_like_resume
    simp [pyTruthyStr, h1basic, h1count]

/-- Witness for C4: a resume with work experience and education but no
skills and no contact info passes; one with only education is rejected;
neither consults the AI even though a key and a (negative) verdict exist. -/
theorem resume_validator_threshold_witness :
    looks_like_resume
      [("work_experience", JVal.arr [JVal.obj [("title", JVal.str "Developer")]]),
       ("education", JVal.arr [JVal.obj [("degree", JVal.str "BSc")]])]
      none (some "api-key") (some false) = ⟨true, 0⟩ ∧
    looks_like_resume
      [("education", JVal.arr [JVal.obj [("degree", JVal.str "BSc")]])]
      none (some "api-key") (some true) = ⟨false, 0⟩ :=
  resume_validator_threshold
    [("work_experience", JVal.arr [JVal.obj [("title", JVal.str "Developer")]]),
     ("education", JVal.arr [JVal.obj [("degree", JVal.str "BSc")]])]
    [("education", JVal.arr [JVal.obj [("degree", JVal.str "BSc")]])]
    (some "api-key") (some false) (some true)
    (by decide) (by decide) (by decide) (by decide)

/-- Rounding an integer (as a rational) is the identity. -/
theorem roundHalfEven_intCast (k : Int) : roundHalfEven (k : Rat) = k := by
  unfold roundHalfEven
  rw [Int.floor_intCast, sub_self]
  have h : (0 : Rat) < Rat.divInt 1 2 := by
    rw [Rat.divInt_eq_div]
    norm_num
  simp [h]

/-- If `q * 100` is the integer `k`, then `round2 q = k / 100`. -/
theorem round2_of_mul_eq (q : Rat) (k : Int) (h : q * 100 = (k : Rat)) :
    round2 q = Rat.divInt k 100 := by
  unfold round2
  rw [h, roundHalfEven_intCast]

/-- A hundredth times 100 is back to the integer numerator. -/
theorem divInt_100_mul_100 (m : Int) : (Rat.divInt m 100) * 100 = (m : Rat) := by
  rw [Rat.divInt_eq_div]
  push_cast
  field_simp

/-- `round2` fixes every integer multiple of `1/100`. -/
theorem round2_divInt_100 (m : Int) : round2 (Rat.divInt m 100) = Rat.divInt m 100 :=
  round2_of_mul_eq _ m (divInt_100_mul_100 m)

/-- Hundredths are closed under addition. -/
theorem divInt_100_add (a b : Int) :
    Rat.divInt a 100 + Rat.divInt b 100 = Rat.divInt (a + b) 100 := by
  rw [Rat.divInt_eq_div, Rat.divInt_eq_div, Rat.divInt_eq_div]
  push_cast
  rw [div_add_div_same]

/-- `round2 0 = 0`. -/
theorem round2_zero : round2 0 = 0 := by
  have h := round2_of_mul_eq 0 0 (by norm_num)
  rw [h]
  decide

/-- Every normalized item's `score` is an integer number of hundredths. -/
theorem normalize_item_score_divInt (cl : List Criterion) (item : ScoreItem) :
    ∃ k : Int, (normalize_item cl item).score = some (Rat.divInt k 100) :=
  ⟨_, rfl⟩

/-- The sum of normalized scores is an integer number of hundredths. -/
theorem sum_scores_divInt (cl : List Criterion) (items : List ScoreItem) :
    ∃ m : Int, ((normalize_ai_response_items cl items).map
      (fun item => item.score.getD 0)).sum = Rat.divInt m 100 := by
  induction items with
  | nil =>
    refine ⟨0, ?_⟩
    simp [normalize_ai_response_items]
  | cons it rest ih =>
    obtain ⟨m, hm⟩ := ih
    obtain ⟨k, hk⟩ := normalize_item_score_divInt cl it
    refine ⟨k + m, ?_⟩
    unfold normalize_ai_response_items at hm ⊢
    rw [List.map_cons, List.map_cons, List.sum_cons, hk, Option.getD_some, hm,
      divInt_100_add]

/-- Clamping to `[0, 100]` keeps hundredths hundredths. -/
theorem clamp_divInt_100 (m : Int) :
    ∃ m2 : Int, max 0 (min 100 (Rat.divInt m 100)) = Rat.divInt m2 100 := by
  rcases le_total (Rat.divInt m 100) 100 with h | h
  · rw [min_eq_right h]
    rcases le_total 0 (Rat.divInt m 100) with h0 | h0
    · exact ⟨m, max_eq_right h0⟩
    · refine ⟨0, ?_⟩
      rw [max_eq_left h0]
      decide
  · rw [min_eq_left h]
    refine ⟨10000, ?_⟩
    rw [max_eq_right (by norm_num : (0 : Rat) ≤ 100)]
    decide

/-- C2: on any normalized item list, the total score is exactly the sum of
the items' (already weighted) `score` fields clamped to `[0, 100]` (the
final `round(, 2)` is the identity there), and therefore always lies in
`[0, 100]`, for arbitrary caller-supplied criteria weights. -/
theorem total_score_clamped_sum (criteria_list : List Criterion) (items : List ScoreItem) :
    calculate_weighted_total_score (normalize_ai_response_items criteria_list items) =
      max 0 (min 100 (((normalize_ai_response_items criteria_list items).map
        (fun item => item.score.getD 0)).sum)) ∧
    0 ≤ calculate_weighted_total_score (normalize_ai_response_items criteria_list items) ∧
    calculate_weighted_total_score (normalize_ai_response_items criteria_list items) ≤ 100 := by
  obtain ⟨m, hm⟩ := sum_scores_divInt criteria_list items
  have hkey : calculate_weighted_total_score (normalize_ai_response_items criteria_list items) =
      max 0 (min 100 (((normalize_ai_response_items criteria_list items).map
        (fun item => item.score.getD 0)).sum)) := by
    unfold calculate_weighted_total_score
    rw [hm]
    obtain ⟨m2, hm2⟩ := clamp_divInt_100 m
    rw [hm2, round2_divInt_100, ← hm2]
  refine ⟨hkey, ?_, ?_⟩
  · rw [hkey]
    exact le_max_left 0 _
  · rw [hkey]
    exact max_le (by norm_num) (min_le_left _ _)

/-- `int()` of an integer-valued rational is that integer. -/
theorem pyInt_intCast (k : Int) : pyInt ((k : Int) : Rat) = k := by
  unfold pyInt
  rw [Rat.num_intCast, Rat.den_intCast, Nat.cast_one]
  exact Int.tdiv_one k

/-- Explicit record form of `normalize_item`. -/
theorem normalize_item_def (cl : List Criterion) (item : ScoreItem) :
    normalize_item cl item =
      { criteriaId := some ((pyInt (item.criteriaId.getD 0) : Int) : Rat)
        matched := some (item.matched.getD 0)
        rawScore := some (max 0 (min 100
          (((pyTruthyNum item.rawScore).orElse (fun _ => pyTruthyNum item.score)).getD 0)))
        score := some (round2 ((max 0 (min 100
          (((pyTruthyNum item.rawScore).orElse (fun _ => pyTruthyNum item.score)).getD 0))) *
          criteriaWeight cl (pyInt (item.criteriaId.getD 0))))
        AINote := some (item.AINote.getD "") } := rfl

/-- Clamping to `[0, 100]` is idempotent. -/
theorem clamp_clamp (x : Rat) :
    max 0 (min 100 (max 0 (min 100 x))) = max 0 (min 100 x) := by
  have h1 : (0 : Rat) ≤ max 0 (min 100 x) := le_max_left _ _
  have h2 : max 0 (min 100 x) ≤ 100 := max_le (by norm_num) (min_le_left _ _)
  rw [min_eq_right h2, max_eq_right h1]

/-- The `rawScore or score or 0` chain evaluates to the reported raw score
when that score is nonzero, or when there is no truthy legacy score. -/
theorem raw0_of_rawScore (item : ScoreItem) (r : Rat) (hraw : item.rawScore = some r)
    (hnz : r ≠ 0 ∨ pyTruthyNum item.score = none) :
    ((pyTruthyNum item.rawScore).orElse (fun _ => pyTruthyNum item.score)).getD 0 = r := by
  rcases hnz with h | h
  · rw [hraw]
    simp [pyTruthyNum, h]
  · by_cases hr : r = 0
    · subst hr
      rw [hraw]
      have h0 : pyTruthyNum (some (0 : Rat)) = none := by simp [pyTruthyNum]
      rw [h0]
      simp [Option.orElse, h]
    · rw [hraw]
      simp [pyTruthyNum, hr]

/-- In a criteria list whose integer ids are duplicate-free, `find?` by the
id of a member returns that member. -/
theorem find_unique_criterion (cl : List Criterion) (c : Criterion)
    (hmem : c ∈ cl) (huniq : (cl.map (fun x => pyInt x.criteriaId)).Nodup) :
    cl.find? (fun x => pyInt x.criteriaId = pyInt c.criteriaId) = some c := by
  induction cl with
  | nil => cases hmem
  | cons a rest ih =>
    rw [List.map_cons, List.nodup_cons] at huniq
    obtain ⟨hna, hn⟩ := huniq
    by_cases hac : pyInt a.criteriaId = pyInt c.criteriaId
    · have hca : c = a := by
        rcases List.mem_cons.mp hmem with h | h
        · exact h
        · exact absurd (hac ▸ List.mem_map_of_mem (fun x => pyInt x.criteriaId) h) hna
      subst hca
      rw [List.find?_cons_of_pos]
      simp
    · have hcr : c ∈ rest := by
        rcases List.mem_cons.mp hmem with h | h
        · exact absurd (h ▸ rfl) hac
        · exact h
      rw [List.find?_cons_of_neg]
      · exact ih hcr hn
      · simp [hac]

/-- The weight map lookup at a member's id gives that member's effective
weight (ids assumed duplicate-free). -/
theorem criteriaWeight_of_mem (cl : List Criterion) (c : Criterion)
    (hmem : c ∈ cl) (huniq : (cl.map (fun x => pyInt x.criteriaId)).Nodup) :
    criteriaWeight cl (pyInt c.criteriaId) = (pyTruthyNum c.weight).getD 0 := by
  unfold criteriaWeight
  have h1 : c ∈ cl.reverse := List.mem_reverse.mpr hmem
  have h2 : (cl.reverse.map (fun x => pyInt x.criteriaId)).Nodup := by
    rw [List.map_reverse]
    exact List.nodup_reverse.mpr huniq
  rw [find_unique_criterion cl.reverse c h1 h2]

/-- An item already in normalized shape (clamped raw score, weighted score)
is a fixed point of `normalize_item`. -/
theorem normalize_item_of_normalized (cl : List Criterion) (cid : Int)
    (m rc : Rat) (note : String) (hrc0 : 0 ≤ rc) (hrc100 : rc ≤ 100) :
    normalize_item cl
      ⟨some ((cid : Int) : Rat), some m, some rc,
        some (round2 (rc * criteriaWeight cl cid)), some note⟩ =
      ⟨some ((cid : Int) : Rat), some m, some rc,
        some (round2 (rc * criteriaWeight cl cid)), some note⟩ := by
  rw [normalize_item_def]
  simp only [Option.getD_some, pyInt_intCast]
  have hchain : ((pyTruthyNum (some rc)).orElse
      (fun _ => pyTruthyNum (some (round2 (rc * criteriaWeight cl cid))))).getD 0 = rc := by
    by_cases hz : rc = 0
    · subst hz
      have hsc : round2 ((0 : Rat) * criteriaWeight cl cid) = 0 := by
        rw [zero_mul, round2_zero]
      rw [hsc]
      simp [pyTruthyNum, Option.orElse]
    · simp [pyTruthyNum, hz]
  rw [hchain]
  have hcl : max 0 (min 100 rc) = rc := by
    rw [min_eq_right hrc100, max_eq_right hrc0]
  rw [hcl]

/-- Normalizing an already-normalized item changes nothing. -/
theorem normalize_item_idem (cl : List Criterion) (item : ScoreItem) :
    normalize_item cl (normalize_item cl item) = normalize_item cl item := by
  rw [normalize_item_def cl item]
  exact normalize_item_of_normalized cl (pyInt (item.criteriaId.getD 0))
    (item.matched.getD 0)
    (max 0 (min 100 (((pyTruthyNum item.rawScore).orElse
      (fun _ => pyTruthyNum item.score)).getD 0)))
    (item.AINote.getD "")
    (le_max_left _ _)
    (max_le (by norm_num) (min_le_left _ _))

/-- Normalization is idempotent on item lists. -/
theorem normalize_items_idem (cl : List Criterion) (items : List ScoreItem) :
    normalize_ai_response_items cl (normalize_ai_response_items cl items) =
      normalize_ai_response_items cl items := by
  unfold normalize_ai_response_items
  rw [List.map_map]
  exact List.map_congr_left (fun it _ => normalize_item_idem cl it)

/-- C1 (amended): for a criteria list with duplicate-free integer ids
containing an entry with id `id` and weight `w`, and an AI item with
criteriaId `id` and `rawScore = r` in `[0, 100]`, the normalized score is
`round(r * w, 2)` with the weight applied exactly once — provided `r ≠ 0`
or the item carries no truthy legacy `score` field (Python's `or` chain
falls back to the legacy `score` when `rawScore` is `0`); and running
normalization again on an already-normalized item list returns it
unchanged (idempotence). -/
theorem weight_applied_once_and_idempotent
    (criteria_list : List Criterion) (c : Criterion) (item : ScoreItem) (w r : Rat)
    (hmem : c ∈ criteria_list)
    (hw : c.weight = some w)
    (huniq : (criteria_list.map (fun x => pyInt x.criteriaId)).Nodup)
    (hitem : item.criteriaId = some c.criteriaId)
    (hraw : item.rawScore = some r)
    (hr0 : 0 ≤ r) (hr100 : r ≤ 100)
    (hnz : r ≠ 0 ∨ pyTruthyNum item.score = none) :
    (normalize_item criteria_list item).score = some (round2 (r * w)) ∧
    (∀ (cl : List Criterion) (items : List ScoreItem),
      normalize_ai_response_items cl (normalize_ai_response_items cl items) =
        normalize_ai_response_items cl items) := by
  refine ⟨?_, fun cl items => normalize_items_idem cl items⟩
  have hwv : criteriaWeight criteria_list (pyInt (item.criteriaId.getD 0)) = w := by
    rw [hitem, Option.getD_some, criteriaWeight_of_mem criteria_list c hmem huniq, hw]
    by_cases h0 : w = 0
    · subst h0
      simp [pyTruthyNum]
    · simp [pyTruthyNum, h0]
  have hsc : (normalize_item criteria_list item).score =
      some (round2 ((max 0 (min 100 (((pyTruthyNum item.rawScore).orElse
        (fun _ => pyTruthyNum item.score)).getD 0))) *
        criteriaWeight criteria_list (pyInt (item.criteriaId.getD 0)))) := by
    rw [normalize_item_def]
  rw [hsc, raw0_of_rawScore item r hraw hnz, min_eq_right hr100, max_eq_right hr0, hwv]

/-- C1 counterexample: with criteria `[{criteriaId: 1, weight: 1}]` and the
AI item `{criteriaId: 1, rawScore: 0, score: 50}`, the claim as stated
requires `score = round(0 * 1, 2) = 0`, but the code's
`item.get("rawScore") or item.get("score") or 0` chain treats the reported
`rawScore = 0` as falsy and uses the legacy `score = 50` instead. -/
theorem weight_applied_once_counterexample :
    (normalize_item [⟨1, "experience", some 1⟩]
        ⟨some 1, some 1, some 0, some 50, some ""⟩).score ≠ some (round2 (0 * 1)) ∧
    (normalize_item [⟨1, "experience", some 1⟩]
        ⟨some 1, some 1, some 0, some 50, some ""⟩).score = some 50 := by
  have hsc : (normalize_item [⟨1, "experience", some 1⟩]
      ⟨some 1, some 1, some 0, some 50, some ""⟩).score = some (50 : Rat) := by
    rw [normalize_item_def]
    show some (round2 ((max 0 (min 100 (((pyTruthyNum (some (0 : Rat))).orElse
      (fun _ => pyTruthyNum (some (50 : Rat)))).getD 0))) *
      criteriaWeight [⟨1, "experience", some 1⟩] (pyInt ((some (1 : Rat)).getD 0)))) = some 50
    have h1 : ((pyTruthyNum (some (0 : Rat))).orElse
        (fun _ => pyTruthyNum (some (50 : Rat)))).getD 0 = 50 := by decide
    have h2 : max (0 : Rat) (min 100 50) = 50 := by norm_num
    have h3 : criteriaWeight [⟨1, "experience", some 1⟩]
        (pyInt ((some (1 : Rat)).getD 0)) = 1 := by decide
    rw [h1, h2, h3, mul_one]
    have h4 : round2 (50 : Rat) = 50 := by
      rw [round2_of_mul_eq (50 : Rat) 5000 (by norm_num)]
      decide
    rw [h4]
  refine ⟨?_, hsc⟩
  rw [hsc, zero_mul, round2_zero]
  decide

/-- Witness for C1 at criteria `[{criteriaId: 2, weight: 1/2}]` and AI item
`{criteriaId: 2, matched: 1, rawScore: 80}` (no legacy score field). -/
theorem weight_applied_once_and_idempotent_witness :
    (normalize_item [⟨2, "education", some (Rat.divInt 1 2)⟩]
        ⟨some 2, some 1, some 80, none, some "ok"⟩).score =
      some (round2 (80 * Rat.divInt 1 2)) ∧
    (∀ (cl : List Criterion) (items : List ScoreItem),
      normalize_ai_response_items cl (normalize_ai_response_items cl items) =
        normalize_ai_response_items cl items) :=
  weight_applied_once_and_idempotent [⟨2, "education", some (Rat.divInt 1 2)⟩]
    ⟨2, "education", some (Rat.divInt 1 2)⟩
    ⟨some 2, some 1, some 80, none, some "ok"⟩
    (Rat.divInt 1 2) 80
    (List.mem_singleton.mpr rfl) rfl (by decide) rfl rfl
    (by decide) (by decide) (Or.inr rfl)

/-- C8: normalization casts `criteriaId` to an integer and clamps the raw
score to `[0, 100]` before weighting; an item whose integer id appears
nowhere in the caller-supplied criteria gets weight `0` — no error — and
hence a weighted score of `0`. -/
theorem normalize_casts_clamps_and_unknown_id_scores_zero
    (cl cl2 : List Criterion) (item item2 : ScoreItem) (r r2 : Rat)
    (hraw : item.rawScore = some r) (hr : r ≠ 0)
    (hraw2 : item2.rawScore = some r2) (hr2 : r2 ≠ 0)
    (hunk : ∀ c ∈ cl2, pyInt c.criteriaId ≠ pyInt (item2.criteriaId.getD 0)) :
    (normalize_item cl item).criteriaId =
      some ((pyInt (item.criteriaId.getD 0) : Int) : Rat) ∧
    (normalize_item cl item).rawScore = some (max 0 (min 100 r)) ∧
    (normalize_item cl item).score =
      some (round2 (max 0 (min 100 r) *
        criteriaWeight cl (pyInt (item.criteriaId.getD 0)))) ∧
    criteriaWeight cl2 (pyInt (item2.criteriaId.getD 0)) = 0 ∧
    (normalize_item cl2 item2).score = some 0 := by
  have hchain := raw0_of_rawScore item r hraw (Or.inl hr)
  have hchain2 := raw0_of_rawScore item2 r2 hraw2 (Or.inl hr2)
  have hw0 : criteriaWeight cl2 (pyInt (item2.criteriaId.getD 0)) = 0 := by
    have hf : cl2.reverse.find?
        (fun c => pyInt c.criteriaId = pyInt (item2.criteriaId.getD 0)) = none := by
      apply List.find?_eq_none.mpr
      intro x hx
      simp only [decide_eq_true_eq]
      exact hunk x (List.mem_reverse.mp hx)
    unfold criteriaWeight
    rw [hf]
  refine ⟨?_, ?_, ?_, hw0, ?_⟩
  · rw [normalize_item_def]
  · rw [normalize_item_def, hchain]
  · rw [normalize_item_def, hchain]
  · rw [normalize_item_def, hchain2, hw0, mul_zero, round2_zero]

/-- Witness for C8: an out-of-range `rawScore = 150` under criteria id 3,
and an AI-invented criteria id 7 absent from the criteria list. -/
theorem normalize_casts_clamps_and_unknown_id_scores_zero_witness :
    (normalize_item [⟨3, "skills", some 1⟩]
        ⟨some 3, some 1, some 150, none, some ""⟩).criteriaId =
      some ((pyInt (((⟨some 3, some 1, some 150, none, some ""⟩ : ScoreItem)).criteriaId.getD 0) : Int) : Rat) ∧
    (normalize_item [⟨3, "skills", some 1⟩]
        ⟨some 3, some 1, some 150, none, some ""⟩).rawScore = some (max 0 (min 100 150)) ∧
    (normalize_item [⟨3, "skills", some 1⟩]
        ⟨some 3, some 1, some 150, none, some ""⟩).score =
      some (round2 (max 0 (min 100 150) *
        criteriaWeight [⟨3, "skills", some 1⟩]
          (pyInt (((⟨some 3, some 1, some 150, none, some ""⟩ : ScoreItem)).criteriaId.getD 0)))) ∧
    criteriaWeight [⟨3, "skills", some 1⟩]
      (pyInt (((⟨some 7, some 0, some 60, none, some ""⟩ : ScoreItem)).criteriaId.getD 0)) = 0 ∧
    (normalize_item [⟨3, "skills", some 1⟩]
        ⟨some 7, some 0, some 60, none, some ""⟩).score = some 0 :=
  normalize_casts_clamps_and_unknown_id_scores_zero
    [⟨3, "skills", some 1⟩] [⟨3, "skills", some 1⟩]
    ⟨some 3, some 1, some 150, none, some ""⟩
    ⟨some 7, some 0, some 60, none, some ""⟩
    150 60 rfl (by decide) rfl (by decide) (by decide)

/-- Unfolding lemma: `dedupCaseInsensitive` on `[]`. -/
theorem dedupCaseInsensitive_nil : dedupCaseInsensitive [] = [] := by
  rw [dedupCaseInsensitive]

/-- Unfolding lemma: `dedupCaseInsensitive` on a cons. -/
theorem dedupCaseInsensitive_cons (x : String) (xs : List String) :
    dedupCaseInsensitive (x :: xs) =
      x :: dedupCaseInsensitive (xs.filter (fun y => pyLower y ≠ pyLower x)) := by
  rw [dedupCaseInsensitive]

/-- A deduplicated list is empty exactly when the input was. -/
theorem dedupCaseInsensitive_eq_nil_iff (xs : List String) :
    dedupCaseInsensitive xs = [] ↔ xs = [] := by
  cases xs with
  | nil => simp [dedupCaseInsensitive_nil]
  | cons x rest => simp [dedupCaseInsensitive_cons]

/-- The `seen`/`unique_parts` loop computes `dedupCIFrom`. -/
theorem build_fold_snd (parts : List String) (seen acc : List String) :
    (parts.foldl
      (fun acc part =>
        if pyLower part ∈ acc.1 then acc
        else (pyLower part :: acc.1, acc.2 ++ [part]))
      (seen, acc)).2 = acc ++ dedupCIFrom seen parts := by
  induction parts generalizing seen acc with
  | nil => simp [dedupCIFrom]
  | cons x xs ih =>
    by_cases h : pyLower x ∈ seen
    · simp [List.foldl_cons, h, dedupCIFrom, ih]
    · simp [List.foldl_cons, h, dedupCIFrom, ih, List.append_assoc]

/-- `dedupCIFrom seen` is `dedupCaseInsensitive` after discarding entries
whose lowercase form is already seen. -/
theorem dedupCIFrom_eq (xs : List String) : ∀ seen : List String,
    dedupCIFrom seen xs =
      dedupCaseInsensitive (xs.filter (fun y => pyLower y ∉ seen)) := by
  induction xs with
  | nil =>
    intro seen
    simp [dedupCIFrom, dedupCaseInsensitive_nil]
  | cons x rest ih =>
    intro seen
    by_cases h : pyLower x ∈ seen
    · rw [dedupCIFrom, if_pos h, ih seen, List.filter_cons_of_neg (by simp [h])]
    · rw [dedupCIFrom, if_neg h, ih (pyLower x :: seen),
        List.filter_cons_of_pos (by simp [h]), dedupCaseInsensitive_cons]
      congr 1
      refine congrArg dedupCaseInsensitive ?_
      rw [List.filter_filter]
      apply List.filter_congr
      intro y hy
      by_cases hyx : pyLower y = pyLower x <;> simp [List.mem_cons, hyx]

/-- The loop of `_build_require_skills` is exactly case-insensitive
first-occurrence deduplication. -/
theorem build_fold_eq (parts : List String) :
    (build_require_skills_fold parts).2 = dedupCaseInsensitive parts := by
  unfold build_require_skills_fold
  rw [build_fold_snd, dedupCIFrom_eq]
  simp

/-- C10: `requireSkills` is the comma-joined concatenation of the trimmed
comma-split entries of `matchSkills` followed by those of `missingSkills`,
deduplicated case-insensitively keeping the first occurrence with its
original casing and order, and `null` when no non-empty entry exists. -/
theorem require_skills_refines_spec (match_skills missing_skills : Option String) :
    build_require_skills match_skills missing_skills =
      require_skills_spec match_skills missing_skills ∧
    (build_require_skills match_skills missing_skills = none ↔
      skill_parts match_skills ++ skill_parts missing_skills = []) := by
  have hkey := build_fold_eq (skill_parts match_skills ++ skill_parts missing_skills)
  constructor
  · unfold build_require_skills require_skills_spec
    rw [hkey]
    by_cases h : dedupCaseInsensitive (skill_parts match_skills ++ skill_parts missing_skills) = []
    · simp [h]
    · simp [h]
  · unfold build_require_skills
    rw [hkey]
    by_cases h : skill_parts match_skills ++ skill_parts missing_skills = []
    · have hd : dedupCaseInsensitive (skill_parts match_skills ++ skill_parts missing_skills) = [] :=
        (dedupCaseInsensitive_eq_nil_iff _).mpr h
      simp [hd, h, dedupCaseInsensitive_nil]
    · have hd : dedupCaseInsensitive (skill_parts match_skills ++ skill_parts missing_skills) ≠ [] :=
        fun hh => h ((dedupCaseInsensitive_eq_nil_iff _).mp hh)
      simp [hd, h]

/-- Lookup in a cons dict. -/
theorem dictGet_cons (p : String × JVal) (d : List (String × JVal)) (k : String) :
    dictGet (p :: d) k = if p.1 = k then some p.2 else dictGet d k := by
  by_cases h : p.1 = k <;> simp [dictGet, List.find?_cons, h]

/-- Assignment makes the key hold the value. -/
theorem dictGet_dictSet_self (d : List (String × JVal)) (k : String) (v : JVal) :
    dictGet (dictSet d k v) k = some v := by
  induction d with
  | nil => simp [dictSet, dictGet_cons]
  | cons p rest ih =>
    by_cases h : p.1 = k
    · simp [dictSet, h, dictGet_cons]
    · simp [dictSet, h, dictGet_cons, ih]

/-- Assignment leaves every other key's binding alone. -/
theorem dictGet_dictSet_ne (d : List (String × JVal)) (k : String) (v : JVal)
    (k2 : String) (h : k2 ≠ k) :
    dictGet (dictSet d k v) k2 = dictGet d k2 := by
  have h1 : ¬(k = k2) := fun he => h he.symm
  induction d with
  | nil => simp [dictSet, dictGet_cons, dictGet, h1]
  | cons p rest ih =>
    by_cases hp : p.1 = k
    · have h2 : ¬(p.1 = k2) := by
        rw [hp]
        exact h1
      simp [dictSet, hp, dictGet_cons, h1, h2]
    · simp [dictSet, hp, dictGet_cons, ih]

/-- A top-level defaulting step does not touch other keys. -/
theorem ensureTopStep_other (d : List (String × JVal)) (kv : String × JVal)
    (k : String) (h : kv.1 ≠ k) :
    dictGet (ensureTopStep d kv) k = dictGet d k := by
  unfold ensureTopStep
  split
  · exact dictGet_dictSet_ne d kv.1 kv.2 k (fun he => h he.symm)
  · exact dictGet_dictSet_ne d kv.1 kv.2 k (fun he => h he.symm)
  · rfl

/-- A top-level defaulting step fills an absent or `None` key. -/
theorem ensureTopStep_self_absent (d : List (String × JVal)) (kv : String × JVal)
    (habs : dictGet d kv.1 = none ∨ dictGet d kv.1 = some JVal.null) :
    dictGet (ensureTopStep d kv) kv.1 = some kv.2 := by
  unfold ensureTopStep
  split
  · exact dictGet_dictSet_self d kv.1 kv.2
  · exact dictGet_dictSet_self d kv.1 kv.2
  · rcases habs with h | h <;> simp_all

/-- A top-level defaulting step keeps every present key present. -/
theorem ensureTopStep_preserves_isSome (d : List (String × JVal)) (kv : String × JVal)
    (k : String) (h : (dictGet d k).isSome) :
    (dictGet (ensureTopStep d kv) k).isSome := by
  by_cases hk : kv.1 = k
  · subst hk
    unfold ensureTopStep
    split
    · rw [dictGet_dictSet_self]
      rfl
    · rw [dictGet_dictSet_self]
      rfl
    · exact h
  · rw [ensureTopStep_other d kv k hk]
    exact h

/-- After its own defaulting step, a key is present. -/
theorem ensureTopStep_sets_isSome (d : List (String × JVal)) (kv : String × JVal) :
    (dictGet (ensureTopStep d kv) kv.1).isSome := by
  unfold ensureTopStep
  split
  · rw [dictGet_dictSet_self]
    rfl
  · rw [dictGet_dictSet_self]
    rfl
  · simp_all

/-- The top-level defaulting loop keeps present keys present. -/
theorem foldl_ensureTopStep_preserves (ds : List (String × JVal))
    (d : List (String × JVal)) (k : String) (h : (dictGet d k).isSome) :
    (dictGet (ds.foldl ensureTopStep d) k).isSome := by
  induction ds generalizing d with
  | nil => exact h
  | cons kv rest ih => exact ih _ (ensureTopStep_preserves_isSome d kv k h)

/-- Every key of the defaults table is present after the loop. -/
theorem foldl_ensureTopStep_mem_isSome (ds : List (String × JVal))
    (d : List (String × JVal)) (kv : String × JVal) (hmem : kv ∈ ds) :
    (dictGet (ds.foldl ensureTopStep d) kv.1).isSome := by
  induction ds generalizing d with
  | nil => cases hmem
  | cons a rest ih =>
    rcases List.mem_cons.mp hmem with h | h
    · subst h
      exact foldl_ensureTopStep_preserves rest _ _ (ensureTopStep_sets_isSome d kv)
    · exact ih _ h

/-- Keys outside the defaults table are untouched by the loop. -/
theorem foldl_ensureTopStep_not_mem (ds : List (String × JVal))
    (d : List (String × JVal)) (k : String) (hnm : ∀ kv ∈ ds, kv.1 ≠ k) :
    dictGet (ds.foldl ensureTopStep d) k = dictGet d k := by
  induction ds generalizing d with
  | nil => rfl
  | cons a rest ih =>
    rw [List.foldl_cons, ih _ (fun kv h => hnm kv (List.mem_cons_of_mem a h)),
      ensureTopStep_other d a k (hnm a (List.mem_cons_self a rest))]

/-- An absent-or-`None` key from a duplicate-free defaults table ends up
bound to its default after the loop. -/
theorem foldl_ensureTopStep_value (ds : List (String × JVal))
    (d : List (String × JVal)) (k : String) (dflt : JVal)
    (hmem : (k, dflt) ∈ ds) (hnodup : (ds.map Prod.fst).Nodup)
    (habs : dictGet d k = none ∨ dictGet d k = some JVal.null) :
    dictGet (ds.foldl ensureTopStep d) k = some dflt := by
  induction ds generalizing d with
  | nil => cases hmem
  | cons a rest ih =>
    rw [List.map_cons, List.nodup_cons] at hnodup
    obtain ⟨hna, hnr⟩ := hnodup
    rcases List.mem_cons.mp hmem with h | h
    · subst h
      rw [List.foldl_cons]
      have hna2 : k ∉ List.map Prod.fst rest := by simpa using hna
      rw [foldl_ensureTopStep_not_mem rest _ k
        (fun kv hkv hkk => hna2 (hkk ▸ List.mem_map_of_mem Prod.fst hkv))]
      exact ensureTopStep_self_absent d (k, dflt) habs
    · have hak : a.1 ≠ k := by
        intro he
        apply hna
        rw [he]
        exact List.mem_map_of_mem Prod.fst h
      rw [List.foldl_cons]
      apply ih _ h hnr
      rw [ensureTopStep_other d a k hak]
      exact habs

/-- Sub-field defaulting does not touch other top-level keys. -/
theorem ensureSubFields_other (d : List (String × JVal)) (t : String)
    (defs : List (String × JVal)) (k : String) (h : t ≠ k) :
    dictGet (ensureSubFields d t defs) k = dictGet d k := by
  unfold ensureSubFields
  split
  · exact dictGet_dictSet_ne d t _ k (fun he => h he.symm)
  · rfl

/-- Sub-field defaulting of an object-valued key appends the missing
sub-field defaults in order. -/
theorem ensureSubFields_self_obj (d : List (String × JVal)) (t : String)
    (defs : List (String × JVal)) (fields : List (String × JVal))
    (h : dictGet d t = some (JVal.obj fields)) :
    dictGet (ensureSubFields d t defs) t =
      some (JVal.obj (defs.foldl ensureSubStep fields)) := by
  unfold ensureSubFields
  split
  · rename_i fs heq
    rw [heq] at h
    injection h with h
    injection h with h
    subst h
    exact dictGet_dictSet_self d t _
  · rename_i hne
    exact absurd h (hne fields)

/-- Sub-field defaulting keeps every present top-level key present. -/
theorem ensureSubFields_preserves_isSome (d : List (String × JVal)) (t : String)
    (defs : List (String × JVal)) (k : String) (h : (dictGet d k).isSome) :
    (dictGet (ensureSubFields d t defs) k).isSome := by
  by_cases ht : t = k
  · subst ht
    unfold ensureSubFields
    split
    · rw [dictGet_dictSet_self]
      rfl
    · exact h
  · rw [ensureSubFields_other d t defs k ht]
    exact h

/-- An absent-or-`None` plain key (not `info`/`technical_skills`) ends up at
its typed default. -/
theorem ensure_plain_key (parsed : List (String × JVal)) (k : String) (dflt : JVal)
    (hmem : (k, dflt) ∈ parserDefaults) (h1 : k ≠ "info") (h2 : k ≠ "technical_skills")
    (habs : dictGet parsed k = none ∨ dictGet parsed k = some JVal.null) :
    dictGet (ensure_required_fields parsed) k = some dflt := by
  unfold ensure_required_fields
  rw [ensureSubFields_other _ _ _ _ (fun he => h2 he.symm),
    ensureSubFields_other _ _ _ _ (fun he => h1 he.symm)]
  exact foldl_ensureTopStep_value parserDefaults parsed k dflt hmem (by decide) habs

/-- An absent-or-`None` `info` key ends up as the object of all-`null`
info sub-defaults. -/
theorem ensure_info_key (parsed : List (String × JVal))
    (habs : dictGet parsed "info" = none ∨ dictGet parsed "info" = some JVal.null) :
    dictGet (ensure_required_fields parsed) "info" = some (JVal.obj infoDefaults) := by
  unfold ensure_required_fields
  rw [ensureSubFields_other _ _ _ _ (by decide : "technical_skills" ≠ "info")]
  have h1 : dictGet (parserDefaults.foldl ensureTopStep parsed) "info" =
      some (JVal.obj []) :=
    foldl_ensureTopStep_value parserDefaults parsed "info" (JVal.obj [])
      (List.mem_cons_self _ _) (by decide) habs
  rw [ensureSubFields_self_obj _ _ _ [] h1]
  rfl

/-- An absent-or-`None` `technical_skills` key ends up as the object of the
six empty-array skill categories. -/
theorem ensure_skills_key (parsed : List (String × JVal))
    (habs : dictGet parsed "technical_skills" = none ∨
      dictGet parsed "technical_skills" = some JVal.null) :
    dictGet (ensure_required_fields parsed) "technical_skills" =
      some (JVal.obj skillsDefaults) := by
  unfold ensure_required_fields
  have h1 : dictGet (parserDefaults.foldl ensureTopStep parsed) "technical_skills" =
      some (JVal.obj []) :=
    foldl_ensureTopStep_value parserDefaults parsed "technical_skills" (JVal.obj [])
      (by simp [parserDefaults]) (by decide) habs
  have h2 : dictGet (ensureSubFields (parserDefaults.foldl ensureTopStep parsed)
      "info" infoDefaults) "technical_skills" = some (JVal.obj []) := by
    rw [ensureSubFields_other _ _ _ _ (by decide : "info" ≠ "technical_skills")]
    exact h1
  rw [ensureSubFields_self_obj _ _ _ [] h2]
  rfl

/-- Every required key is present after defaulting. -/
theorem ensure_required_isSome (parsed : List (String × JVal)) (k : String)
    (hk : k ∈ parserDefaults.map Prod.fst) :
    (dictGet (ensure_required_fields parsed) k).isSome := by
  unfold ensure_required_fields
  apply ensureSubFields_preserves_isSome
  apply ensureSubFields_preserves_isSome
  obtain ⟨kv, hkv, hfst⟩ := List.mem_map.mp hk
  have h := foldl_ensureTopStep_mem_isSome parserDefaults parsed kv hkv
  rw [hfst] at h
  exact h

/-- C3: after `_ensure_required_fields`, all nine required top-level keys
are present, and any key that was absent (or `None`) in the AI output holds
its typed default (for `info` and `technical_skills` the default object
additionally carries its defaulted sub-fields). -/
theorem parsed_resume_schema_complete
    (parsed parsed2 : List (String × JVal)) (k k2 : String)
    (hk : k ∈ parserDefaults.map Prod.fst)
    (hk2 : k2 ∈ parserDefaults.map Prod.fst)
    (habs : dictGet parsed2 k2 = none ∨ dictGet parsed2 k2 = some JVal.null) :
    (dictGet (ensure_required_fields parsed) k).isSome ∧
    dictGet (ensure_required_fields parsed2) k2 = some (parserFinalDefault k2) := by
  refine ⟨ensure_required_isSome parsed k hk, ?_⟩
  have hcases : k2 = "info" ∨ k2 = "education" ∨ k2 = "work_experience" ∨
      k2 = "technical_skills" ∨ k2 = "certifications" ∨ k2 = "projects" ∨
      k2 = "languages_and_skills" ∨ k2 = "summary" ∨
      k2 = "total_experience_years" := by
    simpa [parserDefaults] using hk2
  rcases hcases with h | h | h | h | h | h | h | h | h <;> subst h
  · rw [ensure_info_key parsed2 habs]
    rfl
  · rw [ensure_plain_key parsed2 "education" (JVal.arr [])
      (by simp [parserDefaults]) (by decide) (by decide) habs]
    rfl
  · rw [ensure_plain_key parsed2 "work_experience" (JVal.arr [])
      (by simp [parserDefaults]) (by decide) (by decide) habs]
    rfl
  · rw [ensure_skills_key parsed2 habs]
    rfl
  · rw [ensure_plain_key parsed2 "certifications" (JVal.arr [])
      (by simp [parserDefaults]) (by decide) (by decide) habs]
    rfl
  · rw [ensure_plain_key parsed2 "projects" (JVal.arr [])
      (by simp [parserDefaults]) (by decide) (by decide) habs]
    rfl
  · rw [ensure_plain_key parsed2 "languages_and_skills" (JVal.arr [])
      (by simp [parserDefaults]) (by decide) (by decide) habs]
    rfl
  · rw [ensure_plain_key parsed2 "summary" JVal.null
      (by simp [parserDefaults]) (by decide) (by decide) habs]
    rfl
  · rw [ensure_plain_key parsed2 "total_experience_years" (JVal.num 0)
      (by simp [parserDefaults]) (by decide) (by decide) habs]
    rfl

/-- Witness for C3: a parsed resume carrying only `summary` and `education`;
`education` is present afterwards and the absent `info` gets its default. -/
theorem parsed_resume_schema_complete_witness :
    (dictGet (ensure_required_fields
      [("summary", JVal.null), ("education", JVal.arr [JVal.str "BSc"])])
      "education").isSome ∧
    dictGet (ensure_required_fields
      [("summary", JVal.null), ("education", JVal.arr [JVal.str "BSc"])])
      "info" = some (parserFinalDefault "info") :=
  parsed_resume_schema_complete
    [("summary", JVal.null), ("education", JVal.arr [JVal.str "BSc"])]
    [("summary", JVal.null), ("education", JVal.arr [JVal.str "BSc"])]
    "education" "info" (by decide) (by decide) (Or.inl rfl)

/-- Two positions of a list give a two-element sublist. -/
theorem pair_sublist_of_getElem {α : Type} (l : List α) (i j : Nat)
    (hi : i < l.length) (hj : j < l.length) (hij : i < j) :
    [l[i], l[j]].Sublist l := by
  have hd : l.drop i = l[i] :: l.drop (i + 1) := List.drop_eq_getElem_cons hi
  have hjl : j - (i + 1) < (l.drop (i + 1)).length := by
    simp [List.length_drop]
    omega
  have he : (l.drop (i + 1))[j - (i + 1)] = l[j] := by
    rw [List.getElem_drop]
    congr 1
    omega
  have hj2 : l[j] ∈ l.drop (i + 1) := by
    rw [← he]
    exact List.getElem_mem hjl
  have h1 : [l[i], l[j]].Sublist (l.drop i) := by
    rw [hd]
    exact (List.singleton_sublist.mpr hj2).cons₂ _
  exact h1.trans (List.drop_sublist _ _)

/-- `idxOfD` of a member is a valid position. -/
theorem idxOfD_lt_length {α : Type} [DecidableEq α] (l : List α) (x : α)
    (h : x ∈ l) : idxOfD x l < l.length := by
  induction l with
  | nil => cases h
  | cons y t ih =>
    by_cases hyx : y = x
    · simp [idxOfD, hyx]
    · have hx : x ∈ t := by
        rcases List.mem_cons.mp h with he | he
        · exact absurd he.symm hyx
        · exact he
      simp only [idxOfD, hyx, if_false, List.length_cons]
      exact Nat.succ_lt_succ (ih hx)

/-- The element at `idxOfD` is the element itself. -/
theorem getElem_idxOfD {α : Type} [DecidableEq α] (l : List α) (x : α)
    (h : x ∈ l) (hb : idxOfD x l < l.length) : l[idxOfD x l] = x := by
  induction l with
  | nil => cases h
  | cons y t ih =>
    by_cases hyx : y = x
    · simp [idxOfD, hyx]
    · have hx : x ∈ t := by
        rcases List.mem_cons.mp h with he | he
        · exact absurd he.symm hyx
        · exact he
      have hbt : idxOfD x t < t.length := idxOfD_lt_length t x hx
      have hgoal : idxOfD x (y :: t) = idxOfD x t + 1 := by
        simp [idxOfD, hyx]
      simp only [hgoal] at hb ⊢
      rw [List.getElem_cons_succ]
      exact ih hx hbt

/-- In a duplicate-free list, a two-element sublist orders the positions. -/
theorem idxOfD_lt_of_pair_sublist {α : Type} [DecidableEq α] (l : List α)
    (x y : α) (hnd : l.Nodup) (hxy : x ≠ y) (h : [x, y].Sublist l) :
    idxOfD x l < idxOfD y l := by
  induction l with
  | nil => simp at h
  | cons z t ih =>
    rw [List.nodup_cons] at hnd
    obtain ⟨hz, hndt⟩ := hnd
    cases h with
    | cons _ h2 =>
      have hx : x ∈ t := h2.subset (by simp)
      have hy : y ∈ t := h2.subset (by simp)
      have hzx : z ≠ x := fun he => hz (he ▸ hx)
      have hzy : z ≠ y := fun he => hz (he ▸ hy)
      simp only [idxOfD, hzx, hzy, if_false]
      exact Nat.succ_lt_succ (ih hndt h2)
    | cons₂ _ h2 =>
      have hy : y ∈ t := List.singleton_sublist.mp h2
      have hxy2 : x ≠ y := hxy
      simp only [idxOfD, hxy2, if_false, if_pos rfl]
      exact Nat.succ_pos _

/-- Mapping each element of a duplicate-free list to its own position lists
all positions in order. -/
theorem map_idxOfD_eq_range {α : Type} [DecidableEq α] (l : List α)
    (hnd : l.Nodup) :
    l.map (fun x => idxOfD x l) = List.range l.length := by
  induction l with
  | nil => rfl
  | cons z t ih =>
    rw [List.nodup_cons] at hnd
    obtain ⟨hz, hndt⟩ := hnd
    rw [List.map_cons]
    have h0 : idxOfD z (z :: t) = 0 := by simp [idxOfD]
    rw [h0]
    have hmc : t.map (fun x => idxOfD x (z :: t)) =
        t.map (fun x => (idxOfD x t).succ) :=
      List.map_congr_left (fun x hx => by
        have : z ≠ x := fun he => hz (he ▸ hx)
        simp [idxOfD, this, Nat.succ_eq_add_one])
    rw [hmc]
    have hmm : t.map (fun x => (idxOfD x t).succ) =
        (t.map (fun x => idxOfD x t)).map Nat.succ := by
      rw [List.map_map]
      rfl
    rw [hmm, ih hndt, List.length_cons, List.range_succ_eq_map]

/-- The sort key ordering is transitive. -/
theorem rankLE_trans : ∀ a b c : Nat × CandResult,
    rankLE a b = true → rankLE b c = true → rankLE a c = true := by
  intro a b c
  simp [rankLE]
  omega

/-- The sort key ordering is total. -/
theorem rankLE_total : ∀ a b : Nat × CandResult,
    (rankLE a b || rankLE b a) = true := by
  intro a b
  simp [rankLE]
  omega

/-- Per-position value of the rank reassignment: the candidate at original
position `i` keeps its payload and gets `1 +` its position in the stable
sort by original rank. -/
theorem reassign_ranks_getD (cands : List CandResult) (i : Nat)
    (hi : i < cands.length) :
    (reassign_ranks cands).getD i ⟨0, 0⟩ =
      { cands[i] with rank :=
        ((idxOfD (i, cands[i]) (cands.enum.mergeSort rankLE) : Nat) : Int) + 1 } := by
  have hlen : (reassign_ranks cands).length = cands.length := by
    unfold reassign_ranks
    rw [List.length_map, List.enum_length]
  have hilen : i < (reassign_ranks cands).length := by
    rw [hlen]
    exact hi
  rw [List.getD_eq_getElem _ _ hilen]
  unfold reassign_ranks
  simp only [List.getElem_map, List.getElem_enum]

/-- Core ordering fact: in the stable sort of the index-tagged candidates,
a candidate with strictly smaller original rank — or equal rank but
earlier original position — sits strictly earlier. -/
theorem stable_sort_position_lt (cands : List CandResult) (i j : Nat)
    (hi : i < cands.length) (hj : j < cands.length)
    (hcond : cands[i].rank < cands[j].rank ∨
      (cands[i].rank = cands[j].rank ∧ i < j)) :
    idxOfD (i, cands[i]) (cands.enum.mergeSort rankLE) <
      idxOfD (j, cands[j]) (cands.enum.mergeSort rankLE) := by
  have hndps : cands.enum.Nodup := by
    apply List.Nodup.of_map Prod.fst
    rw [List.enum_map_fst]
    exact List.nodup_range _
  have hperm : (cands.enum.mergeSort rankLE).Perm cands.enum :=
    List.mergeSort_perm _ _
  have hnds : (cands.enum.mergeSort rankLE).Nodup := hperm.nodup_iff.mpr hndps
  have hpw : (cands.enum.mergeSort rankLE).Pairwise (fun a b => rankLE a b = true) :=
    List.sorted_mergeSort rankLE_trans rankLE_total _
  have hmemgen : ∀ m (hm : m < cands.length),
      (m, cands[m]) ∈ cands.enum.mergeSort rankLE := by
    intro m hm
    apply hperm.mem_iff.mpr
    have hme : m < cands.enum.length := by
      rw [List.enum_length]
      exact hm
    have h := List.getElem_mem hme
    rw [List.getElem_enum] at h
    exact h
  rcases hcond with hlt | ⟨heq, hij⟩
  · by_contra hnot
    push_neg at hnot
    have hbi : idxOfD (i, cands[i]) (cands.enum.mergeSort rankLE) <
        (cands.enum.mergeSort rankLE).length :=
      idxOfD_lt_length _ _ (hmemgen i hi)
    have hbj : idxOfD (j, cands[j]) (cands.enum.mergeSort rankLE) <
        (cands.enum.mergeSort rankLE).length :=
      idxOfD_lt_length _ _ (hmemgen j hj)
    rcases Nat.eq_or_lt_of_le hnot with heq2 | hlt2
    · have e1 := getElem_idxOfD _ _ (hmemgen j hj) hbj
      have e2 := getElem_idxOfD _ _ (hmemgen i hi) hbi
      have hji : (j, cands[j]) = (i, cands[i]) := by
        rw [← e1, ← e2]
        congr 1
      have hjieq : j = i := congrArg Prod.fst hji
      subst hjieq
      exact lt_irrefl _ hlt
    · have hp := List.pairwise_iff_getElem.mp hpw _ _ hbj hbi hlt2
      rw [getElem_idxOfD _ _ (hmemgen j hj) hbj,
        getElem_idxOfD _ _ (hmemgen i hi) hbi] at hp
      simp [rankLE] at hp
      omega
  · have hsubenum : [(i, cands[i]), (j, cands[j])].Sublist cands.enum := by
      have hie : i < cands.enum.length := by
        rw [List.enum_length]
        exact hi
      have hje : j < cands.enum.length := by
        rw [List.enum_length]
        exact hj
      have h := pair_sublist_of_getElem cands.enum i j hie hje hij
      rwa [List.getElem_enum, List.getElem_enum] at h
    have hle : rankLE (i, cands[i]) (j, cands[j]) = true := by
      simp [rankLE, heq]
    have hsub2 := List.pair_sublist_mergeSort rankLE_trans rankLE_total hle hsubenum
    apply idxOfD_lt_of_pair_sublist _ _ _ hnds _ hsub2
    intro he
    exact (Nat.ne_of_lt hij) (congrArg Prod.fst he)

/-- C7: when the AI response contains duplicate recommendation ranks, the
repaired output keeps the original candidate list (payloads in place) and
assigns ranks that are exactly a permutation of `{1, ..., N}` with no
duplicates; a candidate with strictly smaller original AI rank gets a
strictly smaller new rank, and candidates with tied original ranks keep
their original relative order (Python's `sorted` is stable). -/
theorem rank_repair_unique_and_stable (cands : List CandResult)
    (hdup : ¬(cands.map (fun c => c.rank)).Nodup) :
    (repair_ranks cands).length = cands.length ∧
    ((repair_ranks cands).map (fun c => c.rank)).Nodup ∧
    ((repair_ranks cands).map (fun c => c.rank)).Perm
      ((List.range' 1 cands.length).map Int.ofNat) ∧
    (∀ i j, i < cands.length → j < cands.length →
      ((cands.getD i ⟨0, 0⟩).rank < (cands.getD j ⟨0, 0⟩).rank →
        ((repair_ranks cands).getD i ⟨0, 0⟩).rank <
          ((repair_ranks cands).getD j ⟨0, 0⟩).rank) ∧
      ((cands.getD i ⟨0, 0⟩).rank = (cands.getD j ⟨0, 0⟩).rank → i < j →
        ((repair_ranks cands).getD i ⟨0, 0⟩).rank <
          ((repair_ranks cands).getD j ⟨0, 0⟩).rank)) ∧
    (∀ i, ((repair_ranks cands).getD i ⟨0, 0⟩).applicationId =
      (cands.getD i ⟨0, 0⟩).applicationId) := by
  have hrep : repair_ranks cands = reassign_ranks cands := by
    unfold repair_ranks
    rw [if_neg hdup]
  have hndps : cands.enum.Nodup := by
    apply List.Nodup.of_map Prod.fst
    rw [List.enum_map_fst]
    exact List.nodup_range _
  have hperm : (cands.enum.mergeSort rankLE).Perm cands.enum :=
    List.mergeSort_perm _ _
  have hnds : (cands.enum.mergeSort rankLE).Nodup := hperm.nodup_iff.mpr hndps
  have hslen : (cands.enum.mergeSort rankLE).length = cands.length := by
    rw [List.length_mergeSort, List.enum_length]
  have hlen : (reassign_ranks cands).length = cands.length := by
    unfold reassign_ranks
    rw [List.length_map, List.enum_length]
  have e1 : (reassign_ranks cands).map (fun c => c.rank) =
      cands.enum.map
        (fun p => ((idxOfD p (cands.enum.mergeSort rankLE) : Nat) : Int) + 1) := by
    unfold reassign_ranks
    rw [List.map_map]
    rfl
  have e3 : (cands.enum.mergeSort rankLE).map
      (fun p => ((idxOfD p (cands.enum.mergeSort rankLE) : Nat) : Int) + 1) =
      (List.range cands.length).map (fun n => ((n : Nat) : Int) + 1) := by
    have h2 : (cands.enum.mergeSort rankLE).map
        (fun p => ((idxOfD p (cands.enum.mergeSort rankLE) : Nat) : Int) + 1) =
        ((cands.enum.mergeSort rankLE).map
          (fun p => idxOfD p (cands.enum.mergeSort rankLE))).map
          (fun n => ((n : Nat) : Int) + 1) := by
      rw [List.map_map]
      rfl
    rw [h2, map_idxOfD_eq_range _ hnds, hslen]
  have e4 : (List.range' 1 cands.length).map Int.ofNat =
      (List.range cands.length).map (fun n => ((n : Nat) : Int) + 1) := by
    rw [List.range'_eq_map_range, List.map_map]
    apply List.map_congr_left
    intro a ha
    show Int.ofNat (1 + a) = (a : Int) + 1
    rw [Int.ofNat_eq_natCast]
    push_cast
    ring
  have hpermRanks : ((reassign_ranks cands).map (fun c => c.rank)).Perm
      ((List.range' 1 cands.length).map Int.ofNat) := by
    rw [e1, e4, ← e3]
    exact hperm.symm.map _
  have hndRanks : ((reassign_ranks cands).map (fun c => c.rank)).Nodup := by
    apply hpermRanks.nodup_iff.mpr
    apply List.Nodup.map
    · intro a b hab
      rw [Int.ofNat_eq_natCast, Int.ofNat_eq_natCast] at hab
      exact_mod_cast hab
    · exact List.nodup_range' 1 cands.length
  refine ⟨by rw [hrep]; exact hlen, by rw [hrep]; exact hndRanks,
    by rw [hrep]; exact hpermRanks, ?_, ?_⟩
  · intro i j hi hj
    rw [hrep, List.getD_eq_getElem cands _ hi, List.getD_eq_getElem cands _ hj,
      reassign_ranks_getD cands i hi, reassign_ranks_getD cands j hj]
    constructor
    · intro hlt
      have h := stable_sort_position_lt cands i j hi hj (Or.inl hlt)
      dsimp only
      omega
    · intro heq hij
      have h := stable_sort_position_lt cands i j hi hj (Or.inr ⟨heq, hij⟩)
      dsimp only
      omega
  · intro i
    by_cases hi : i < cands.length
    · rw [hrep, reassign_ranks_getD cands i hi, List.getD_eq_getElem cands _ hi]
    · push_neg at hi
      rw [hrep, List.getD_eq_default _ _ (by rw [hlen]; exact hi),
        List.getD_eq_default _ _ hi]

/-- Witness for C7: two candidates both ranked 1 by the AI. -/
theorem rank_repair_unique_and_stable_witness :
    (repair_ranks [⟨10, 1⟩, ⟨20, 1⟩]).length =
      ([⟨10, 1⟩, ⟨20, 1⟩] : List CandResult).length ∧
    ((repair_ranks [⟨10, 1⟩, ⟨20, 1⟩]).map (fun c => c.rank)).Nodup ∧
    ((repair_ranks [⟨10, 1⟩, ⟨20, 1⟩]).map (fun c => c.rank)).Perm
      ((List.range' 1 ([⟨10, 1⟩, ⟨20, 1⟩] : List CandResult).length).map Int.ofNat) ∧
    (∀ i j, i < ([⟨10, 1⟩, ⟨20, 1⟩] : List CandResult).length →
      j < ([⟨10, 1⟩, ⟨20, 1⟩] : List CandResult).length →
      ((([⟨10, 1⟩, ⟨20, 1⟩] : List CandResult).getD i ⟨0, 0⟩).rank <
          (([⟨10, 1⟩, ⟨20, 1⟩] : List CandResult).getD j ⟨0, 0⟩).rank →
        ((repair_ranks [⟨10, 1⟩, ⟨20, 1⟩]).getD i ⟨0, 0⟩).rank <
          ((repair_ranks [⟨10, 1⟩, ⟨20, 1⟩]).getD j ⟨0, 0⟩).rank) ∧
      ((([⟨10, 1⟩, ⟨20, 1⟩] : List CandResult).getD i ⟨0, 0⟩).rank =
          (([⟨10, 1⟩, ⟨20, 1⟩] : List CandResult).getD j ⟨0, 0⟩).rank → i < j →
        ((repair_ranks [⟨10, 1⟩, ⟨20, 1⟩]).getD i ⟨0, 0⟩).rank <
          ((repair_ranks [⟨10, 1⟩, ⟨20, 1⟩]).getD j ⟨0, 0⟩).rank)) ∧
    (∀ i, ((repair_ranks [⟨10, 1⟩, ⟨20, 1⟩]).getD i ⟨0, 0⟩).applicationId =
      (([⟨10, 1⟩, ⟨20, 1⟩] : List CandResult).getD i ⟨0, 0⟩).applicationId) :=
  rank_repair_unique_and_stable [⟨10, 1⟩, ⟨20, 1⟩] (by decide)
